import Mathlib

/-!
Shallow embedding of the phase-field UNet repository's original logic:

* `src/pipeline/dataset/loaders.py` — the `H5Dataset` class: construction
  (mode validation, opening the backing store, cumulative group boundaries),
  the length query, and indexed lookup (`np.digitize`-based bucket search,
  Python/numpy negative-index semantics, snapshot extraction with a leading
  channel dimension and a cast to the dataset's dtype).
* `src/train_model.py` — the epoch loop of `main`: periodic validation,
  best-checkpoint persistence guarded by a strict improvement of the mean
  validation loss, and the unconditional final model save.

Machine floats are abstracted: the `float32` cast applied by `.to(self.dtype)`
is modelled by an arbitrary elementwise function `f32 : α → α` together with a
symbolic dtype tag, and validation losses are rationals compared exactly (the
checkpoint logic uses only the order on losses).
-/

/-- Error kinds of the dataset component, following the repository's spec
vocabulary. `invalidArgument` stands for Python's `ValueError` (bad mode at
construction, and `np.digitize`'s rejection of non-monotonic bins),
`outOfRange` for `IndexError` (list / array index out of bounds),
`storageUnavailable` for a failing `h5py.File` open. -/
inductive Err
  | invalidArgument
  | storageUnavailable
  | storageFormat
  | outOfRange
deriving DecidableEq

/-- Tensor dtype tags; the code only ever produces `float32` tensors. -/
inductive DType
  | float32
  | float64
deriving DecidableEq

/-- A (C, H, W) tensor as produced by `__getitem__`: a dtype tag plus nested
list data (outer list = channel dimension). -/
structure Tensor (α : Type) where
  dtype : DType
  data : List (List (List α))
deriving DecidableEq

/-- One simulation run (an HDF5 group): its name, its `time` dataset and its
`field_values` dataset (a list of H×W snapshots). -/
structure Run (α : Type) where
  name : String
  time : List α
  field_values : List (List (List α))
deriving DecidableEq

/-- The `H5Dataset` object's state after `__init__`: configuration attributes
plus the content of the opened HDF5 file (its ordered groups). The attributes
`group_names`, `group_boundaries` and `n_groups` are recovered as functions of
this state below, exactly as `__init__` computes them. -/
structure H5Dataset (α : Type) where
  path : String
  mode : String
  skip : ℤ
  dtype : DType
  runs : List (Run α)
deriving DecidableEq

/-- Python indexing of a list (also numpy 1-d arrays and h5py datasets indexed
by a plain integer): a negative index `k` wraps to `k + len`, and anything
still outside `[0, len)` raises `IndexError`. -/
def pyGet {α : Type} (xs : List α) (k : ℤ) : Except Err α :=
  let j : ℤ := if k < 0 then k + xs.length else k
  if 0 ≤ j then
    match xs.get? j.toNat with
    | some v => Except.ok v
    | none => Except.error Err.outOfRange
  else Except.error Err.outOfRange

/-- Fuel-driven binary search, the loop of `np.searchsorted(a, x, side='right')`:
maintains `lo ≤ result ≤ hi`, probing `mid = (lo + hi) / 2` and moving `lo`
past `mid` exactly when `a[mid] ≤ x`. -/
def bisectAuxF (a : List ℤ) (x : ℤ) : ℕ → ℕ → ℕ → ℕ
  | 0, lo, _ => lo
  | fuel + 1, lo, hi =>
    if lo < hi then
      let mid := (lo + hi) / 2
      if a.getD mid 0 ≤ x then bisectAuxF a x fuel (mid + 1) hi
      else bisectAuxF a x fuel lo mid
    else lo

/-- `np.searchsorted(a, x, side='right')`; the fuel `a.length + 1` dominates
the initial interval width, so the search always runs to completion. -/
def bisectRight (a : List ℤ) (x : ℤ) : ℕ := bisectAuxF a x (a.length + 1) 0 a.length

/-- Adjacent-pairs check `a[i] ≤ a[i+1]`, the increasing half of numpy's
`check_array_monotonic`. -/
def nonDecr : List ℤ → Bool
  | [] => true
  | [_] => true
  | a :: b :: t => decide (a ≤ b) && nonDecr (b :: t)

/-- Adjacent-pairs check `a[i] ≥ a[i+1]`, the decreasing half of numpy's
`check_array_monotonic`. -/
def nonIncr : List ℤ → Bool
  | [] => true
  | [_] => true
  | a :: b :: t => decide (b ≤ a) && nonIncr (b :: t)

/-- `np.digitize(x, bins, right=False)`: rejects non-monotonic bins with
`ValueError`; on non-decreasing bins returns `searchsorted(bins, x, 'right')`,
on (strictly somewhere) decreasing bins the reversed-array variant. Ties make
a list count as increasing, as in numpy's `check_array_monotonic`. -/
def npDigitize (x : ℤ) (bins : List ℤ) : Except Err ℕ :=
  if nonDecr bins then Except.ok (bisectRight bins x)
  else if nonIncr bins then Except.ok (bins.length - bisectRight bins.reverse x)
  else Except.error Err.invalidArgument

namespace H5Dataset

/-- `self.group_names` — the ordered HDF5 group names. -/
def group_names {α : Type} (d : H5Dataset α) : List String := d.runs.map Run.name

/-- `self.n_groups = len(self.group_names)`. -/
def n_groups {α : Type} (d : H5Dataset α) : ℕ := d.group_names.length

/-- `self.group_boundaries = np.cumsum([0] + [len(self.h5f[g]['time'][:]) - self.skip
for g in self.group_names])` — note: no clamping of negative per-run counts. -/
def group_boundaries {α : Type} (d : H5Dataset α) : List ℤ :=
  List.scanl (· + ·) 0 (d.runs.map (fun r => (r.time.length : ℤ) - d.skip))

/-- `__len__`: `int(self.group_boundaries[-1])`. -/
def len {α : Type} (d : H5Dataset α) : ℤ := d.group_boundaries.getLastD 0

/-- `__init__`: validates the mode (raising `ValueError` before the backing
store is touched), then opens `{path}/{mode}_data.h5` through the abstract
store map (a missing file raises at open), and records the groups. The dtype
attribute is fixed to `float32`. -/
def init {α : Type} (store : String → Option (List (Run α))) (path mode : String)
    (skip : ℤ) : Except Err (H5Dataset α) :=
  if mode = "train" ∨ mode = "valid" ∨ mode = "test" then
    match store (path ++ "/" ++ mode ++ "_data.h5") with
    | some runs => Except.ok ⟨path, mode, skip, DType.float32, runs⟩
    | none => Except.error Err.storageUnavailable
  else Except.error Err.invalidArgument

/-- Lines 137–138 of `loaders.py`:
`group_id = np.digitize(index, self.group_boundaries, right=False) - 1` and
`index_within_group = index - self.group_boundaries[group_id]` (numpy wraps
the `-1` that digitize yields below the first boundary). -/
def resolve {α : Type} (d : H5Dataset α) (index : ℤ) : Except Err (ℤ × ℤ) := do
  let dg ← npDigitize index d.group_boundaries
  let gid : ℤ := (dg : ℤ) - 1
  let b ← pyGet d.group_boundaries gid
  pure (gid, index - b)

/-- `torch.from_numpy(snap).to(self.dtype)` followed by `snap[None, :, :]`:
cast every entry with the dtype's rounding function and add a leading channel
dimension of size 1. -/
def toTensor {α : Type} (dt : DType) (f32 : α → α) (snap : List (List α)) : Tensor α :=
  ⟨dt, [snap.map (List.map f32)]⟩

/-- `__getitem__`: resolve the group and in-group index, fetch
`field_values[index_within_group]` and `field_values[index_within_group + skip]`
from that group, and return both snapshots as channel-augmented tensors cast to
`self.dtype`. There is no explicit bounds check on `index`. -/
def getitem {α : Type} (f32 : α → α) (d : H5Dataset α) (index : ℤ) :
    Except Err (Tensor α × Tensor α) := do
  let gj ← d.resolve index
  let run ← pyGet d.runs gj.1
  let field_data ← pyGet run.field_values gj.2
  let next_field_data ← pyGet run.field_values (gj.2 + d.skip)
  pure (toTensor d.dtype f32 field_data, toTensor d.dtype f32 next_field_data)

/-- A call of the `__getitem__` method as a state transformer: the body reads
`self` but assigns no attribute, so the post-state is the pre-state. -/
def getitemCall {α : Type} (f32 : α → α) (d : H5Dataset α) (index : ℤ) :
    H5Dataset α × Except Err (Tensor α × Tensor α) :=
  (d, d.getitem f32 index)

end H5Dataset

/-- The spec's length formula, written from the spec's words: the sum of the
per-run clamped sample counts `max(0, len(run) - skip)`. To be compared with
the code's `H5Dataset.len`. -/
def specClampedLen {α : Type} (d : H5Dataset α) : ℤ :=
  (d.runs.map (fun r => max 0 ((r.time.length : ℤ) - d.skip))).sum

/-- A run of `n` time steps with distinguishable 1×1 field snapshots, for
concrete instances. -/
def mkRun (n : ℕ) : Run ℤ :=
  ⟨"g", List.replicate n 0, (List.range n).map (fun t => [[(t : ℤ)]])⟩

/-- A dataset over runs of the given lengths, for concrete instances. -/
def mkDS (skip : ℤ) (ls : List ℕ) : H5Dataset ℤ :=
  ⟨"data", "train", skip, DType.float32, ls.map mkRun⟩

/-! ## The training driver's epoch loop (`main` in `train_model.py`) -/

/-- Observable persistence events of one training run: a validation phase at
an epoch, a best-model checkpoint write at an epoch, and the final model
save. -/
inductive TrainEvent
  | validation (epoch : ℕ)
  | bestCheckpoint (epoch : ℕ)
  | finalCheckpoint
deriving DecidableEq

/-- One epoch's validation-and-checkpoint tail (lines 200–222): when
`epoch % valid_freq == 0` the validation phase runs, producing the mean
validation loss `val_losses epoch`; a best checkpoint is written and
`min_val_loss` updated exactly when that loss is strictly below the best seen
so far. Returns the new `min_val_loss` and the emitted events. -/
def epochStep (valid_freq : ℕ) (val_losses : ℕ → ℚ) (epoch : ℕ) (best : WithTop ℚ) :
    WithTop ℚ × List TrainEvent :=
  if epoch % valid_freq = 0 then
    let val_loss := val_losses epoch
    if (val_loss : WithTop ℚ) < best then
      ((val_loss : WithTop ℚ), [TrainEvent.validation epoch, TrainEvent.bestCheckpoint epoch])
    else (best, [TrainEvent.validation epoch])
  else (best, [])

/-- The epoch loop `for epoch in range(n_epochs)` from a given starting epoch,
threading `min_val_loss` and concatenating the per-epoch events. -/
def epochLoop (valid_freq : ℕ) (val_losses : ℕ → ℚ) :
    ℕ → ℕ → WithTop ℚ → WithTop ℚ × List TrainEvent
  | _, 0, best => (best, [])
  | epoch, n + 1, best =>
    let s := epochStep valid_freq val_losses epoch best
    let rest := epochLoop valid_freq val_losses (epoch + 1) n s.1
    (rest.1, s.2 ++ rest.2)

/-- A completed run of `main`'s training loop: `min_val_loss = float('inf')`,
the epoch loop over `range(n_epochs)`, then the unconditional final save. -/
def trainMain (valid_freq n_epochs : ℕ) (val_losses : ℕ → ℚ) : List TrainEvent :=
  (epochLoop valid_freq val_losses 0 n_epochs ⊤).2 ++ [TrainEvent.finalCheckpoint]

/-! ## Library lemmas about the embedded primitives -/

theorem pyGet_ok_get {α : Type} (xs : List α) (k : ℕ) (h : k < xs.length) :
    pyGet xs (k : ℤ) = Except.ok (xs.get ⟨k, h⟩) := by
  have hk : ¬ (k : ℤ) < 0 := by omega
  have h0 : (0 : ℤ) ≤ (k : ℤ) := by omega
  simp only [pyGet, if_neg hk, if_pos h0, Int.toNat_ofNat, Int.toNat_natCast]
  rw [List.get?_eq_get h]

theorem pyGet_ok_getD (xs : List ℤ) (k : ℕ) (h : k < xs.length) :
    pyGet xs (k : ℤ) = Except.ok (xs.getD k 0) := by
  rw [pyGet_ok_get xs k h]
  rw [List.getD_eq_getElem xs 0 h]
  rfl

theorem pyGet_err_of_ge {α : Type} (xs : List α) (k : ℤ) (h0 : 0 ≤ k)
    (h : (xs.length : ℤ) ≤ k) : pyGet xs k = Except.error Err.outOfRange := by
  have hk : ¬ k < 0 := by omega
  have hge : xs.length ≤ k.toNat := by omega
  simp only [pyGet, if_neg hk, if_pos h0]
  rw [List.get?_eq_none.2 hge]

theorem bisectAuxF_spec (a : List ℤ) (x : ℤ) :
    ∀ fuel lo hi, lo ≤ hi → hi - lo ≤ fuel →
      lo ≤ bisectAuxF a x fuel lo hi ∧ bisectAuxF a x fuel lo hi ≤ hi ∧
      (lo < bisectAuxF a x fuel lo hi → a.getD (bisectAuxF a x fuel lo hi - 1) 0 ≤ x) ∧
      (bisectAuxF a x fuel lo hi < hi → x < a.getD (bisectAuxF a x fuel lo hi) 0) := by
  intro fuel
  induction fuel with
  | zero =>
    intro lo hi h1 h2
    have : hi = lo := by omega
    subst this
    simp [bisectAuxF]
  | succ n ih =>
    intro lo hi h1 h2
    by_cases hlh : lo < hi
    · have hm1 : lo ≤ (lo + hi) / 2 := by omega
      have hm2 : (lo + hi) / 2 < hi := by omega
      simp only [bisectAuxF, if_pos hlh]
      by_cases hcmp : a.getD ((lo + hi) / 2) 0 ≤ x
      · rw [if_pos hcmp]
        have hrec := ih ((lo + hi) / 2 + 1) hi (by omega) (by omega)
        refine ⟨by omega, hrec.2.1, ?_, hrec.2.2.2⟩
        intro _
        rcases Nat.lt_or_ge ((lo + hi) / 2 + 1) (bisectAuxF a x n ((lo + hi) / 2 + 1) hi) with hc | hc
        · exact hrec.2.2.1 hc
        · have he : bisectAuxF a x n ((lo + hi) / 2 + 1) hi = (lo + hi) / 2 + 1 := by omega
          rw [he]
          simpa using hcmp
      · rw [if_neg hcmp]
        have hrec := ih lo ((lo + hi) / 2) (by omega) (by omega)
        refine ⟨hrec.1, by omega, hrec.2.2.1, ?_⟩
        intro _
        rcases Nat.lt_or_ge (bisectAuxF a x n lo ((lo + hi) / 2)) ((lo + hi) / 2) with hc | hc
        · exact hrec.2.2.2 hc
        · have he : bisectAuxF a x n lo ((lo + hi) / 2) = (lo + hi) / 2 := by omega
          rw [he]
          omega
    · simp only [bisectAuxF, if_neg hlh]
      exact ⟨le_refl _, h1, by omega, by omega⟩

theorem bisectRight_spec (a : List ℤ) (x : ℤ) :
    bisectRight a x ≤ a.length ∧
    (0 < bisectRight a x → a.getD (bisectRight a x - 1) 0 ≤ x) ∧
    (bisectRight a x < a.length → x < a.getD (bisectRight a x) 0) := by
  have := bisectAuxF_spec a x (a.length + 1) 0 a.length (by omega) (by omega)
  exact ⟨this.2.1, fun h => this.2.2.1 h, this.2.2.2⟩

theorem bisectRight_eq_length (a : List ℤ) (x : ℤ)
    (h : ∀ m : ℕ, m < a.length → a.getD m 0 ≤ x) : bisectRight a x = a.length := by
  have hs := bisectRight_spec a x
  rcases Nat.lt_or_ge (bisectRight a x) a.length with hc | hc
  · have h1 := hs.2.2 hc
    have h2 := h (bisectRight a x) hc
    omega
  · omega

/-! ## Lemmas about `scanl (+)`, the cumulative-boundary builder -/

theorem scanl_getD_zero (l : List ℤ) (a d : ℤ) : (List.scanl (· + ·) a l).getD 0 d = a := by
  cases l <;> rfl

theorem scanl_getLastD (l : List ℤ) : ∀ a d : ℤ, (List.scanl (· + ·) a l).getLastD d = a + l.sum := by
  induction l with
  | nil => intro a d; simp [List.scanl_nil]
  | cons c t ih =>
    intro a d
    rw [List.scanl_cons, List.singleton_append, List.getLastD_cons, ih (a + c) a, List.sum_cons]
    ring

theorem scanl_mem_le (l : List ℤ) : ∀ a x : ℤ, (∀ c ∈ l, 0 ≤ c) →
    x ∈ List.scanl (· + ·) a l → x ≤ a + l.sum := by
  induction l with
  | nil =>
    intro a x _ hx
    simp [List.scanl_nil] at hx
    simp [hx]
  | cons c t ih =>
    intro a x hc hx
    rw [List.scanl_cons, List.singleton_append] at hx
    have hc0 : 0 ≤ c := hc c (by simp)
    have hct : ∀ y ∈ t, 0 ≤ y := fun y hy => hc y (by simp [hy])
    rcases List.mem_cons.1 hx with rfl | hx
    · have h2 : 0 ≤ t.sum := List.sum_nonneg hct
      rw [List.sum_cons]
      omega
    · have := ih (a + c) x hct hx
      rw [List.sum_cons]
      omega

theorem scanl_getD_succ_sub (l : List ℤ) :
    ∀ (a : ℤ) (k : ℕ), k < l.length →
      (List.scanl (· + ·) a l).getD (k + 1) 0 - (List.scanl (· + ·) a l).getD k 0 = l.getD k 0 := by
  induction l with
  | nil => intro a k h; simp at h
  | cons c t ih =>
    intro a k h
    rw [List.scanl_cons, List.singleton_append]
    cases k with
    | zero =>
      simp [scanl_getD_zero]
    | succ k' =>
      have h' : k' < t.length := by simpa using h
      simpa using ih (a + c) k' h'

theorem getD_last_of_ne_nil (l : List ℤ) : l ≠ [] → l.getD (l.length - 1) 0 = l.getLastD 0 := by
  induction l with
  | nil => intro h; exact absurd rfl h
  | cons a t ih =>
    intro _
    cases t with
    | nil => rfl
    | cons b t' =>
      show (b :: t').getD ((b :: t').length - 1) 0 = (a :: b :: t').getLastD 0
      rw [ih (by simp)]
      simp [List.getLastD_cons]

/-! ## Monotonicity of the boundary sequence -/

theorem nonDecr_iff_chain (l : List ℤ) : nonDecr l = true ↔ List.Chain' (· ≤ ·) l := by
  induction l with
  | nil => simp [nonDecr]
  | cons a t ih =>
    cases t with
    | nil => simp [nonDecr]
    | cons b t' =>
      rw [show nonDecr (a :: b :: t') = (decide (a ≤ b) && nonDecr (b :: t')) from rfl]
      rw [List.chain'_cons]
      rw [Bool.and_eq_true, decide_eq_true_eq, ih]

theorem scanl_nonDecr (l : List ℤ) : ∀ a : ℤ, (∀ c ∈ l, 0 ≤ c) →
    nonDecr (List.scanl (· + ·) a l) = true := by
  induction l with
  | nil => intro a _; rfl
  | cons c t ih =>
    intro a hc
    rw [List.scanl_cons, List.singleton_append]
    have h1 := ih (a + c) (fun y hy => hc y (by simp [hy]))
    have hca : a ≤ a + c := by have := hc c (by simp); omega
    cases t with
    | nil =>
      show (decide (a ≤ a + c) && nonDecr [a + c]) = true
      simp [hca, nonDecr]
    | cons d t' =>
      rw [List.scanl_cons, List.singleton_append] at h1 ⊢
      show (decide (a ≤ a + c) && nonDecr ((a + c) :: List.scanl (· + ·) ((a + c) + d) t')) = true
      rw [Bool.and_eq_true, decide_eq_true_eq]
      exact ⟨hca, h1⟩

theorem chain_getD_mono (l : List ℤ) (h : List.Chain' (· ≤ ·) l) :
    ∀ p q : ℕ, p ≤ q → q < l.length → l.getD p 0 ≤ l.getD q 0 := by
  intro p q hpq hq
  rcases Nat.eq_or_lt_of_le hpq with rfl | hlt
  · exact le_refl _
  · have hp : p < l.length := lt_trans hlt hq
    have hpw := List.chain'_iff_pairwise.1 h
    have := List.pairwise_iff_getElem.1 hpw p q hp hq hlt
    rw [List.getD_eq_getElem l 0 hp, List.getD_eq_getElem l 0 hq]
    exact this

/-! ## The central resolution lemma for valid indices -/

theorem boundaries_length {α : Type} (d : H5Dataset α) :
    d.group_boundaries.length = d.runs.length + 1 := by
  rw [H5Dataset.group_boundaries, List.length_scanl, List.length_map]

theorem counts_nonneg {α : Type} (d : H5Dataset α)
    (hws : ∀ r ∈ d.runs, d.skip ≤ (r.time.length : ℤ)) :
    ∀ c ∈ d.runs.map (fun r => (r.time.length : ℤ) - d.skip), 0 ≤ c := by
  intro c hc
  rcases List.mem_map.1 hc with ⟨r, hr, rfl⟩
  have := hws r hr
  omega

theorem resolve_spec {α : Type} (d : H5Dataset α) (i : ℤ)
    (hws : ∀ r ∈ d.runs, d.skip ≤ (r.time.length : ℤ))
    (h0 : 0 ≤ i) (h1 : i < d.len) :
    ∃ (g : ℕ) (run : Run α),
      d.resolve i = Except.ok ((g : ℤ), i - d.group_boundaries.getD g 0) ∧
      g < d.n_groups ∧
      pyGet d.runs (g : ℤ) = Except.ok run ∧
      d.group_boundaries.getD g 0 ≤ i ∧
      i < d.group_boundaries.getD (g + 1) 0 ∧
      i - d.group_boundaries.getD g 0 < (run.time.length : ℤ) - d.skip ∧
      (∀ g' : ℕ, g' < d.n_groups → d.group_boundaries.getD g' 0 ≤ i →
        i < d.group_boundaries.getD (g' + 1) 0 → g' = g) := by
  have hlen : d.group_boundaries.length = d.runs.length + 1 := boundaries_length d
  have hcnt := counts_nonneg d hws
  have hnd : nonDecr d.group_boundaries = true := scanl_nonDecr _ 0 hcnt
  have hspec := bisectRight_spec d.group_boundaries i
  set r := bisectRight d.group_boundaries i with hr
  have hr1 : 1 ≤ r := by
    rcases Nat.eq_zero_or_pos r with h | h
    · exfalso
      have hlt : r < d.group_boundaries.length := by omega
      have := hspec.2.2 hlt
      rw [h] at this
      rw [show d.group_boundaries.getD 0 0 = 0 from scanl_getD_zero _ 0 0] at this
      omega
    · omega
  have hr2 : r < d.group_boundaries.length := by
    rcases Nat.lt_or_ge r d.group_boundaries.length with h | h
    · exact h
    · exfalso
      have hle : r = d.group_boundaries.length := by omega
      have := hspec.2.1 (by omega)
      rw [hle] at this
      rw [getD_last_of_ne_nil _ (by intro hnil; rw [hnil] at hlen; simp at hlen)] at this
      have : d.len ≤ i := this
      omega
  refine ⟨r - 1, d.runs.get ⟨r - 1, by omega⟩, ?_⟩
  have hgcast : ((r - 1 : ℕ) : ℤ) = (r : ℤ) - 1 := by omega
  have hb : pyGet d.group_boundaries ((r - 1 : ℕ) : ℤ) =
      Except.ok (d.group_boundaries.getD (r - 1) 0) := pyGet_ok_getD _ _ (by omega)
  have hres : d.resolve i = Except.ok (((r - 1 : ℕ) : ℤ), i - d.group_boundaries.getD (r - 1) 0) := by
    rw [H5Dataset.resolve]
    rw [show npDigitize i d.group_boundaries = Except.ok r by rw [npDigitize, if_pos hnd]]
    show (pyGet d.group_boundaries ((r : ℤ) - 1)).bind
        (fun b => Except.ok (((r : ℤ) - 1), i - b)) =
      Except.ok (((r - 1 : ℕ) : ℤ), i - d.group_boundaries.getD (r - 1) 0)
    simp only [← hgcast]
    rw [hb]
    rfl
  have hng : d.n_groups = d.runs.length := by
    rw [H5Dataset.n_groups, H5Dataset.group_names, List.length_map]
  have hlower : d.group_boundaries.getD (r - 1) 0 ≤ i := hspec.2.1 (by omega)
  have hupper : i < d.group_boundaries.getD ((r - 1) + 1) 0 := by
    rw [show (r - 1) + 1 = r from by omega]
    exact hspec.2.2 hr2
  have hdiff : d.group_boundaries.getD ((r - 1) + 1) 0 - d.group_boundaries.getD (r - 1) 0 =
      (d.runs.map (fun u => (u.time.length : ℤ) - d.skip)).getD (r - 1) 0 :=
    scanl_getD_succ_sub _ 0 (r - 1) (by rw [List.length_map]; omega)
  have hcget : (d.runs.map (fun u => (u.time.length : ℤ) - d.skip)).getD (r - 1) 0 =
      ((d.runs.get ⟨r - 1, by omega⟩).time.length : ℤ) - d.skip := by
    rw [List.getD_eq_getElem _ 0 (by rw [List.length_map]; omega), List.getElem_map]
    rfl
  have hchain : List.Chain' (· ≤ ·) d.group_boundaries := (nonDecr_iff_chain _).1 hnd
  refine ⟨hres, by omega, pyGet_ok_get _ _ (by omega), hlower, hupper, ?_, ?_⟩
  · rw [← hcget]
    omega
  · intro g2 hg2 hge hlt
    by_contra hne
    rcases Nat.lt_or_ge g2 (r - 1) with hc | hc
    · have hm := chain_getD_mono _ hchain (g2 + 1) (r - 1) (by omega) (by omega)
      omega
    · have hm := chain_getD_mono _ hchain r g2 (by omega) (by omega)
      rw [show (r - 1) + 1 = r from by omega] at hupper
      omega

theorem pyGet_ok_mem {α : Type} (xs : List α) (k : ℤ) (v : α)
    (h : pyGet xs k = Except.ok v) : v ∈ xs := by
  simp only [pyGet] at h
  set j : ℤ := if k < 0 then k + xs.length else k with hj
  by_cases h0 : 0 ≤ j
  · rw [if_pos h0] at h
    cases hg : xs.get? j.toNat with
    | none => rw [hg] at h; exact absurd h (by simp)
    | some w =>
      rw [hg] at h
      have hw : w = v := Except.ok.inj h
      rw [← hw]
      exact List.get?_mem hg
  · rw [if_neg h0] at h
    exact absurd h (by simp)

theorem bindE_ok {β γ : Type} (a : β) (f : β → Except Err γ) :
    (Except.ok a : Except Err β) >>= f = f a := rfl

theorem pyGet_ok_of_get? {α : Type} (xs : List α) (k : ℤ) (v : α) (h0 : 0 ≤ k)
    (hv : xs.get? k.toNat = some v) : pyGet xs k = Except.ok v := by
  have hk : ¬ k < 0 := by omega
  simp only [pyGet, if_neg hk, if_pos h0, hv]

/-- C1 (amended): the length query returns the final cumulative boundary, which
is the sum of the unclamped per-run counts `len(run) - skip`; when every run
has at least `skip` time steps this coincides with the spec's clamped formula
`sum(max(0, len - skip))`. -/
theorem length_eq_unclamped_sum {α : Type} (d : H5Dataset α) :
    d.len = (d.runs.map (fun r => (r.time.length : ℤ) - d.skip)).sum ∧
    ((∀ r ∈ d.runs, d.skip ≤ (r.time.length : ℤ)) → d.len = specClampedLen d) := by
  constructor
  · rw [H5Dataset.len, H5Dataset.group_boundaries, scanl_getLastD]
    ring
  · intro h
    rw [H5Dataset.len, H5Dataset.group_boundaries, scanl_getLastD, specClampedLen, zero_add]
    congr 1
    refine List.map_congr_left ?_
    intro r hr
    have := h r hr
    omega

/-- C1 witness: a concrete dataset (one run of 3 steps, skip 1) where the
amended theorem's hypothesis holds and the clamped formula agrees. -/
theorem length_eq_unclamped_sum_witness :
    (mkDS 1 [3]).len = specClampedLen (mkDS 1 [3]) :=
  (length_eq_unclamped_sum (mkDS 1 [3])).2 (by decide)

/-- C1 counterexample: with skip 5 and a single run of 2 time steps the code's
length is -3, not the clamped 0 the claim asserts. -/
theorem length_clamped_sum_cex :
    (mkDS 5 [2]).len = -3 ∧ specClampedLen (mkDS 5 [2]) = 0 ∧
    (mkDS 5 [2]).len ≠ specClampedLen (mkDS 5 [2]) :=
  ⟨rfl, rfl, by decide⟩

/-- C2 (amended): the boundary sequence has length `n_groups + 1` and starts
at 0; per-run counts are the unclamped `len(run) - skip`, so the sequence is
non-decreasing exactly when every run has at least `skip` time steps — a
shorter run silently contributes a negative count (no rejection, no clamp). -/
theorem boundaries_start_zero_monotone {α : Type} (d : H5Dataset α) :
    d.group_boundaries.length = d.n_groups + 1 ∧
    d.group_boundaries.getD 0 0 = 0 ∧
    ((∀ r ∈ d.runs, d.skip ≤ (r.time.length : ℤ)) →
      List.Chain' (· ≤ ·) d.group_boundaries) := by
  refine ⟨?_, scanl_getD_zero _ 0 0, ?_⟩
  · rw [boundaries_length d, H5Dataset.n_groups, H5Dataset.group_names, List.length_map]
  · intro h
    exact (nonDecr_iff_chain _).1 (scanl_nonDecr _ 0 (counts_nonneg d h))

/-- C2 witness: a concrete two-run dataset satisfying the hypothesis, with
non-decreasing boundaries. -/
theorem boundaries_start_zero_monotone_witness :
    List.Chain' (· ≤ ·) ((mkDS 1 [3, 4]).group_boundaries) :=
  (boundaries_start_zero_monotone (mkDS 1 [3, 4])).2.2 (by decide)

/-- C2 counterexample: with skip 1 and runs of lengths [3, 0], the second
per-run count is -1, the boundary sequence [0, 2, 1] decreases, and nothing is
rejected or clamped. -/
theorem boundaries_negative_count_cex :
    (mkDS 1 [3, 0]).group_boundaries = [0, 2, 1] ∧
    ¬ List.Chain' (· ≤ ·) ((mkDS 1 [3, 0]).group_boundaries) :=
  ⟨rfl, fun hch => absurd ((nonDecr_iff_chain _).2 hch) (by decide)⟩

/-- C3: evaluating `__getitem__` at the failing input: on a dataset with one
run of 2 time steps and skip 1 (length 1), the out-of-range index -1 does not
raise; it silently returns the same snapshot pair as index 0 (steps 0 and 1 of
the run), because `np.digitize` yields group -1 and every subsequent negative
index wraps around. -/
theorem negative_index_returns_data :
    (-1 : ℤ) < 0 ∧
    (mkDS 1 [2]).getitem id (-1) =
      Except.ok (⟨DType.float32, [[[0]]]⟩, ⟨DType.float32, [[[1]]]⟩) ∧
    (mkDS 1 [2]).getitem id 0 =
      Except.ok (⟨DType.float32, [[[0]]]⟩, ⟨DType.float32, [[[1]]]⟩) :=
  ⟨by decide, rfl, rfl⟩

/-- C4 (amended): for datasets whose runs all have at least `skip` time steps,
every valid index resolves to the unique bracketing run with an in-range local
offset; the concrete [10, 20] / skip 1 examples hold. (If some run is shorter
than `skip`, the boundaries are non-monotonic and lookup instead fails inside
`np.digitize` — see the counterexample.) -/
theorem lookup_resolution_correct :
    (∀ {α : Type} (d : H5Dataset α) (i : ℤ),
      (∀ r ∈ d.runs, d.skip ≤ (r.time.length : ℤ)) → 0 ≤ i → i < d.len →
      ∃ (g : ℕ) (run : Run α),
        d.resolve i = Except.ok ((g : ℤ), i - d.group_boundaries.getD g 0) ∧
        g < d.n_groups ∧
        pyGet d.runs (g : ℤ) = Except.ok run ∧
        d.group_boundaries.getD g 0 ≤ i ∧
        i < d.group_boundaries.getD (g + 1) 0 ∧
        i - d.group_boundaries.getD g 0 < (run.time.length : ℤ) - d.skip ∧
        (∀ g' : ℕ, g' < d.n_groups → d.group_boundaries.getD g' 0 ≤ i →
          i < d.group_boundaries.getD (g' + 1) 0 → g' = g)) ∧
    ((mkDS 1 [10, 20]).len = 28 ∧
      (mkDS 1 [10, 20]).resolve 0 = Except.ok (0, 0) ∧
      (mkDS 1 [10, 20]).resolve 9 = Except.ok (1, 0) ∧
      (mkDS 1 [10, 20]).resolve 27 = Except.ok (1, 18)) :=
  ⟨fun d i hws h0 h1 => resolve_spec d i hws h0 h1, rfl, rfl, rfl, rfl⟩

/-- C4 witness: the general statement applied to the dataset with runs
[10, 20], skip 1, at the valid index 9. -/
theorem lookup_resolution_correct_witness :
    ∃ (g : ℕ) (run : Run ℤ),
      (mkDS 1 [10, 20]).resolve 9 =
        Except.ok ((g : ℤ), 9 - (mkDS 1 [10, 20]).group_boundaries.getD g 0) ∧
      g < (mkDS 1 [10, 20]).n_groups ∧
      pyGet (mkDS 1 [10, 20]).runs (g : ℤ) = Except.ok run ∧
      (mkDS 1 [10, 20]).group_boundaries.getD g 0 ≤ 9 ∧
      (9 : ℤ) < (mkDS 1 [10, 20]).group_boundaries.getD (g + 1) 0 ∧
      (9 : ℤ) - (mkDS 1 [10, 20]).group_boundaries.getD g 0 <
        (run.time.length : ℤ) - (mkDS 1 [10, 20]).skip ∧
      (∀ g' : ℕ, g' < (mkDS 1 [10, 20]).n_groups →
        (mkDS 1 [10, 20]).group_boundaries.getD g' 0 ≤ 9 →
        (9 : ℤ) < (mkDS 1 [10, 20]).group_boundaries.getD (g' + 1) 0 → g' = g) :=
  lookup_resolution_correct.1 (mkDS 1 [10, 20]) 9 (by decide) (by decide) (by decide)

/-- C4 counterexample: runs [3, 1, 3] with skip 2 give boundaries [0, 1, 0, 1]
and length 1; index 0 is valid, yet lookup resolves no run at all (digitize
raises on the non-monotonic boundaries), and the bracketing run is not unique
(runs 0 and 2 both satisfy the half-open bracket). -/
theorem lookup_resolution_cex :
    (0 : ℤ) ≤ 0 ∧ (0 : ℤ) < (mkDS 2 [3, 1, 3]).len ∧
    (mkDS 2 [3, 1, 3]).group_boundaries = [0, 1, 0, 1] ∧
    (mkDS 2 [3, 1, 3]).resolve 0 = Except.error Err.invalidArgument ∧
    (mkDS 2 [3, 1, 3]).getitem id 0 = Except.error Err.invalidArgument ∧
    ((mkDS 2 [3, 1, 3]).group_boundaries.getD 0 0 ≤ 0 ∧
      (0 : ℤ) < (mkDS 2 [3, 1, 3]).group_boundaries.getD (0 + 1) 0) ∧
    ((mkDS 2 [3, 1, 3]).group_boundaries.getD 2 0 ≤ 0 ∧
      (0 : ℤ) < (mkDS 2 [3, 1, 3]).group_boundaries.getD (2 + 1) 0) :=
  ⟨le_refl 0, by decide, rfl, rfl, rfl, ⟨by decide, by decide⟩, ⟨by decide, by decide⟩⟩

/-- C5: construction fixes the dtype to float32, and for every valid index on
a well-formed store (runs with at least `skip` steps and parallel
`time`/`field_values` lengths), lookup returns exactly the run's snapshots at
local steps `j` and `j + skip`, each cast elementwise by the float32 rounding
function and wrapped in a leading channel dimension of size 1. -/
theorem snapshot_pair_correct :
    (∀ {α : Type} (store : String → Option (List (Run α))) (path mode : String)
      (skip : ℤ) (d : H5Dataset α),
      H5Dataset.init store path mode skip = Except.ok d → d.dtype = DType.float32) ∧
    (∀ {α : Type} (f32 : α → α) (d : H5Dataset α) (i : ℤ),
      d.dtype = DType.float32 → 1 ≤ d.skip →
      (∀ r ∈ d.runs, d.skip ≤ (r.time.length : ℤ)) →
      (∀ r ∈ d.runs, r.field_values.length = r.time.length) →
      0 ≤ i → i < d.len →
      ∃ (g j : ℤ) (run : Run α) (s1 s2 : List (List α)),
        d.resolve i = Except.ok (g, j) ∧
        pyGet d.runs g = Except.ok run ∧
        0 ≤ j ∧ j + d.skip < (run.time.length : ℤ) ∧
        pyGet run.field_values j = Except.ok s1 ∧
        pyGet run.field_values (j + d.skip) = Except.ok s2 ∧
        d.getitem f32 i = Except.ok
          (⟨DType.float32, [s1.map (List.map f32)]⟩,
           ⟨DType.float32, [s2.map (List.map f32)]⟩)) := by
  constructor
  · intro α store path mode skip d h
    rw [H5Dataset.init] at h
    by_cases hm : mode = "train" ∨ mode = "valid" ∨ mode = "test"
    · rw [if_pos hm] at h
      cases hs : store (path ++ "/" ++ mode ++ "_data.h5") with
      | none => rw [hs] at h; exact absurd h (by simp)
      | some runs =>
        rw [hs] at h
        rw [← Except.ok.inj h]
    · rw [if_neg hm] at h
      exact absurd h (by simp)
  · intro α f32 d i hdt hsk hws hpar h0 h1
    obtain ⟨g, run, hres, hg, hrun, hlow, hup, hcount, _⟩ := resolve_spec d i hws h0 h1
    have hmem : run ∈ d.runs := pyGet_ok_mem _ _ _ hrun
    have hfv : run.field_values.length = run.time.length := hpar run hmem
    set j : ℤ := i - d.group_boundaries.getD g 0 with hjdef
    have hj0 : 0 ≤ j := by omega
    have hjn : ((j.toNat : ℕ) : ℤ) = j := Int.toNat_of_nonneg hj0
    have hjlt : j.toNat < run.field_values.length := by omega
    have hkn : (((j + d.skip).toNat : ℕ) : ℤ) = j + d.skip := Int.toNat_of_nonneg (by omega)
    have hklt : (j + d.skip).toNat < run.field_values.length := by omega
    obtain ⟨s1, hget1⟩ : ∃ s1, run.field_values.get? j.toNat = some s1 :=
      ⟨_, List.get?_eq_get hjlt⟩
    obtain ⟨s2, hget2⟩ : ∃ s2, run.field_values.get? (j + d.skip).toNat = some s2 :=
      ⟨_, List.get?_eq_get hklt⟩
    have hs1 : pyGet run.field_values j = Except.ok s1 :=
      pyGet_ok_of_get? _ j s1 hj0 hget1
    have hs2 : pyGet run.field_values (j + d.skip) = Except.ok s2 :=
      pyGet_ok_of_get? _ (j + d.skip) s2 (by omega) hget2
    refine ⟨(g : ℤ), j, run, s1, s2, hres, hrun, hj0, by omega, hs1, hs2, ?_⟩
    rw [H5Dataset.getitem, hres]
    show (pyGet d.runs (g : ℤ)).bind (fun run2 =>
        (pyGet run2.field_values j).bind (fun fd =>
          (pyGet run2.field_values (j + d.skip)).bind (fun nfd =>
            Except.ok (H5Dataset.toTensor d.dtype f32 fd,
              H5Dataset.toTensor d.dtype f32 nfd)))) = _
    rw [hrun]
    show (pyGet run.field_values j).bind (fun fd =>
        (pyGet run.field_values (j + d.skip)).bind (fun nfd =>
          Except.ok (H5Dataset.toTensor d.dtype f32 fd,
            H5Dataset.toTensor d.dtype f32 nfd))) = _
    rw [hs1]
    show (pyGet run.field_values (j + d.skip)).bind (fun nfd =>
        Except.ok (H5Dataset.toTensor d.dtype f32 s1,
          H5Dataset.toTensor d.dtype f32 nfd)) = _
    rw [hs2, hdt]
    rfl

/-- C5 witness: the lookup theorem applied at index 0 of a concrete dataset
(one run of 2 steps, skip 1). -/
theorem snapshot_pair_correct_witness :
    ∃ (g j : ℤ) (run : Run ℤ) (s1 s2 : List (List ℤ)),
      (mkDS 1 [2]).resolve 0 = Except.ok (g, j) ∧
      pyGet (mkDS 1 [2]).runs g = Except.ok run ∧
      0 ≤ j ∧ j + (mkDS 1 [2]).skip < (run.time.length : ℤ) ∧
      pyGet run.field_values j = Except.ok s1 ∧
      pyGet run.field_values (j + (mkDS 1 [2]).skip) = Except.ok s2 ∧
      (mkDS 1 [2]).getitem id 0 = Except.ok
        (⟨DType.float32, [s1.map (List.map id)]⟩,
         ⟨DType.float32, [s2.map (List.map id)]⟩) :=
  snapshot_pair_correct.2 id (mkDS 1 [2]) 0 rfl (by decide) (by decide) (by decide)
    (by decide) (by decide)

/-- C8: a mode outside {train, valid, test} makes construction fail with
`ValueError` regardless of what the store would return (the check precedes the
open), and a mode inside the set never produces that error. -/
theorem mode_validation_correct {α : Type} (store : String → Option (List (Run α)))
    (path mode : String) (skip : ℤ) :
    (¬ (mode = "train" ∨ mode = "valid" ∨ mode = "test") →
      H5Dataset.init store path mode skip = Except.error Err.invalidArgument) ∧
    ((mode = "train" ∨ mode = "valid" ∨ mode = "test") →
      H5Dataset.init store path mode skip ≠ Except.error Err.invalidArgument) := by
  constructor
  · intro h
    rw [H5Dataset.init, if_neg h]
  · intro h
    rw [H5Dataset.init, if_pos h]
    cases store (path ++ "/" ++ mode ++ "_data.h5") with
    | some runs => exact fun hc => Except.noConfusion hc
    | none => exact fun hc => Err.noConfusion (Except.error.inj hc)

/-- C8 witness: a bad mode fails with `invalidArgument` even on a store with
no file at all, and the mode "train" does not produce that error. -/
theorem mode_validation_correct_witness :
    H5Dataset.init (fun _ => (none : Option (List (Run ℤ)))) "data" "evil" 1 =
      Except.error Err.invalidArgument ∧
    H5Dataset.init (fun _ => (some [] : Option (List (Run ℤ)))) "data" "train" 1 ≠
      Except.error Err.invalidArgument :=
  ⟨(mode_validation_correct _ "data" "evil" 1).1 (by decide),
   (mode_validation_correct _ "data" "train" 1).2 (by decide)⟩

/-- C9: a `__getitem__` call is deterministic — two calls on the same state
with the same index return equal snapshot pairs — and leaves the index state
(`skip`, `group_names`, `group_boundaries`, `n_groups`) unchanged, since the
method body assigns no attribute. -/
theorem getitem_deterministic_pure {α : Type} (f32 : α → α) (d : H5Dataset α) (i : ℤ) :
    (d.getitemCall f32 i).2 = ((d.getitemCall f32 i).1.getitemCall f32 i).2 ∧
    (d.getitemCall f32 i).1.skip = d.skip ∧
    (d.getitemCall f32 i).1.group_names = d.group_names ∧
    (d.getitemCall f32 i).1.group_boundaries = d.group_boundaries ∧
    (d.getitemCall f32 i).1.n_groups = d.n_groups :=
  ⟨rfl, rfl, rfl, rfl, rfl⟩

theorem final_not_in_epochStep (vf : ℕ) (vl : ℕ → ℚ) (e : ℕ) (b : WithTop ℚ) :
    TrainEvent.finalCheckpoint ∉ (epochStep vf vl e b).2 := by
  simp only [epochStep]
  by_cases hm : e % vf = 0
  · rw [if_pos hm]
    by_cases hlt : ((vl e : WithTop ℚ)) < b
    · rw [if_pos hlt]; simp
    · rw [if_neg hlt]; simp
  · rw [if_neg hm]; simp

theorem final_not_in_epochLoop (vf : ℕ) (vl : ℕ → ℚ) :
    ∀ (n e : ℕ) (b : WithTop ℚ), TrainEvent.finalCheckpoint ∉ (epochLoop vf vl e n b).2 := by
  intro n
  induction n with
  | zero => intro e b; simp [epochLoop]
  | succ m ih =>
    intro e b
    simp only [epochLoop, List.mem_append]
    rintro (hc | hc)
    · exact final_not_in_epochStep vf vl e b hc
    · exact ih (e + 1) _ hc

/-- C6: the best-model checkpoint is written in an epoch's validation tail iff
validation ran there and the mean validation loss strictly improves on the
best seen (ties write nothing); the best-seen value changes only when a
checkpoint event is emitted, and then to that loss; on the loss sequence
[0.5, 0.3, 0.4, 0.2] a completed 4-epoch run checkpoints at epochs 0, 1 and 3
and not at epoch 2. -/
theorem checkpoint_iff_strict_improvement :
    (∀ (vf : ℕ) (vl : ℕ → ℚ) (e : ℕ) (best : WithTop ℚ), 1 ≤ vf →
      (TrainEvent.bestCheckpoint e ∈ (epochStep vf vl e best).2 ↔
        e % vf = 0 ∧ (vl e : WithTop ℚ) < best)) ∧
    (∀ (vf : ℕ) (vl : ℕ → ℚ) (e : ℕ) (best : WithTop ℚ),
      (epochStep vf vl e best).1 ≠ best →
      TrainEvent.bestCheckpoint e ∈ (epochStep vf vl e best).2 ∧
      (epochStep vf vl e best).1 = (vl e : WithTop ℚ)) ∧
    trainMain 1 4 (fun e => [mkRat 1 2, mkRat 3 10, mkRat 2 5, mkRat 1 5].getD e 0) =
      [TrainEvent.validation 0, TrainEvent.bestCheckpoint 0,
       TrainEvent.validation 1, TrainEvent.bestCheckpoint 1,
       TrainEvent.validation 2,
       TrainEvent.validation 3, TrainEvent.bestCheckpoint 3,
       TrainEvent.finalCheckpoint] := by
  refine ⟨?_, ?_, by decide⟩
  · intro vf vl e best _
    simp only [epochStep]
    by_cases hm : e % vf = 0
    · rw [if_pos hm]
      by_cases hlt : ((vl e : WithTop ℚ)) < best
      · rw [if_pos hlt]; simp [hm, hlt]
      · rw [if_neg hlt]; simp [hm, hlt]
    · rw [if_neg hm]; simp [hm]
  · intro vf vl e best hne
    simp only [epochStep] at hne ⊢
    by_cases hm : e % vf = 0
    · rw [if_pos hm] at hne ⊢
      by_cases hlt : ((vl e : WithTop ℚ)) < best
      · rw [if_pos hlt] at hne ⊢; simp
      · rw [if_neg hlt] at hne ⊢; exact absurd rfl hne
    · rw [if_neg hm] at hne ⊢; exact absurd rfl hne

/-- C6 witness: with the best value at its initialization +infinity, epoch 0
of a validating run (valid_freq 1) emits a best checkpoint. -/
theorem checkpoint_iff_strict_improvement_witness :
    TrainEvent.bestCheckpoint 0 ∈ (epochStep 1 (fun _ => 0) 0 ⊤).2 :=
  (checkpoint_iff_strict_improvement.1 1 (fun _ => 0) 0 ⊤ (le_refl 1)).2
    ⟨Nat.zero_mod 1, WithTop.coe_lt_top 0⟩

/-- C7: every completed run writes the final model checkpoint exactly once,
after the epoch loop, whatever the validation frequency and losses were. -/
theorem final_checkpoint_exactly_once (vf ne : ℕ) (vl : ℕ → ℚ) :
    (trainMain vf ne vl).count TrainEvent.finalCheckpoint = 1 := by
  rw [trainMain, List.count_append,
    List.count_eq_zero.2 (final_not_in_epochLoop vf vl ne 0 ⊤)]
  rfl

/-- C10: since `0 % valid_freq = 0`, the first epoch of every completed run
with at least one epoch executes the validation phase. -/
theorem validation_at_epoch_zero (vf ne : ℕ) (vl : ℕ → ℚ) (_hvf : 1 ≤ vf)
    (hne : 1 ≤ ne) : TrainEvent.validation 0 ∈ trainMain vf ne vl := by
  rw [trainMain]
  apply List.mem_append_left
  cases ne with
  | zero => omega
  | succ m =>
    simp only [epochLoop]
    apply List.mem_append_left
    simp only [epochStep]
    rw [if_pos (Nat.zero_mod vf)]
    by_cases hlt : ((vl 0 : WithTop ℚ)) < ⊤
    · rw [if_pos hlt]; simp
    · rw [if_neg hlt]; simp

/-- C10 witness: a one-epoch run with valid_freq 1 validates at epoch 0. -/
theorem validation_at_epoch_zero_witness :
    TrainEvent.validation 0 ∈ trainMain 1 1 (fun _ => 0) :=
  validation_at_epoch_zero 1 1 (fun _ => 0) (le_refl 1) (le_refl 1)
